import Mathlib

/-!
Shallow embedding of a Black–Scholes pricer and implied-volatility solver.

Source files: `black_scholes.py` (pricer, vega, validation) and
`implied_vol.py` (no-arbitrage bounds, Newton–Raphson solver, bisection
solver, dispatch wrapper).

Floating-point values are modelled as real numbers.  A Python function that
may `raise ValueError` is modelled with `Except String`; the float NaN
sentinel used by the solvers is modelled by the dedicated constructor
`PyFloat.nan`, so a solver returns `Except String PyFloat`.
The SciPy standard normal CDF `norm.cdf` is modelled as the integral of the
standard normal density.
-/

open Real MeasureTheory Set
open scoped Classical

/-- Standard normal probability density (SciPy `norm.pdf`). -/
noncomputable def normalPdf (t : ℝ) : ℝ :=
  (Real.sqrt (2 * Real.pi))⁻¹ * Real.exp (-(t ^ 2) / 2)

/-- Standard normal cumulative distribution (SciPy `norm.cdf`). -/
noncomputable def normalCdf (x : ℝ) : ℝ :=
  ∫ t in Set.Iic x, normalPdf t

lemma normalPdf_nonneg (t : ℝ) : 0 ≤ normalPdf t := by
  unfold normalPdf; positivity

lemma normalPdf_eq (t : ℝ) :
    normalPdf t = (Real.sqrt (2 * Real.pi))⁻¹ * Real.exp (-(1/2) * t ^ 2) := by
  unfold normalPdf; congr 1; ring_nf

lemma integrable_normalPdf : Integrable normalPdf := by
  have h := (integrable_exp_neg_mul_sq (by norm_num : (0:ℝ) < 1/2)).const_mul
    (Real.sqrt (2 * Real.pi))⁻¹
  have e : normalPdf = fun t : ℝ =>
      (Real.sqrt (2 * Real.pi))⁻¹ * Real.exp (-(1/2) * t ^ 2) := by
    funext t; exact normalPdf_eq t
  rw [e]; exact h

lemma sqrt_two_pi_pos : 0 < Real.sqrt (2 * Real.pi) :=
  Real.sqrt_pos.mpr (by positivity)

lemma integral_normalPdf : ∫ t, normalPdf t = 1 := by
  have e : normalPdf = fun t : ℝ =>
      (Real.sqrt (2 * Real.pi))⁻¹ * Real.exp (-(1/2) * t ^ 2) := by
    funext t; exact normalPdf_eq t
  rw [e, MeasureTheory.integral_mul_left, integral_gaussian]
  have : Real.pi / (1/2) = 2 * Real.pi := by ring
  rw [this, inv_mul_cancel₀ (ne_of_gt sqrt_two_pi_pos)]

lemma normalCdf_nonneg (x : ℝ) : 0 ≤ normalCdf x :=
  setIntegral_nonneg measurableSet_Iic (fun t _ => normalPdf_nonneg t)

lemma normalCdf_neg_eq (x : ℝ) :
    normalCdf (-x) = ∫ t in Set.Ioi x, normalPdf t := by
  unfold normalCdf
  have e : ∀ t : ℝ, normalPdf t = normalPdf (-t) := by
    intro t; unfold normalPdf; rw [neg_sq]
  calc ∫ t in Set.Iic (-x), normalPdf t
      = ∫ t in Set.Iic (-x), normalPdf (-t) := by
        refine setIntegral_congr_fun measurableSet_Iic (fun t _ => e t)
    _ = ∫ t in Set.Ioi (-(-x)), normalPdf t := integral_comp_neg_Iic (-x) _
    _ = ∫ t in Set.Ioi x, normalPdf t := by rw [neg_neg]

/-- Symmetry of the standard normal CDF: `Φ x + Φ (-x) = 1`. -/
lemma normalCdf_add_neg (x : ℝ) : normalCdf x + normalCdf (-x) = 1 := by
  rw [normalCdf_neg_eq]
  unfold normalCdf
  have h := MeasureTheory.integral_add_compl (measurableSet_Iic (a := x))
    integrable_normalPdf
  rw [Set.compl_Iic] at h
  rw [h, integral_normalPdf]

lemma integrable_pdf_shift (x : ℝ) :
    Integrable (fun t : ℝ => normalPdf t * Real.exp (x - t)) := by
  have e : (fun t : ℝ => normalPdf t * Real.exp (x - t)) = fun t : ℝ =>
      ((Real.sqrt (2 * Real.pi))⁻¹ * Real.exp (x + 1/2)) *
        Real.exp (-(1/2) * (t + 1) ^ 2) := by
    funext t; unfold normalPdf
    rw [mul_assoc, ← Real.exp_add, mul_assoc, ← Real.exp_add]
    congr 1; ring_nf
  rw [e]
  exact ((integrable_exp_neg_mul_sq (by norm_num : (0:ℝ) < 1/2)).comp_add_right
    1).const_mul _

/-- Crude Chernoff-style bound: `Φ x ≤ exp (x + 1/2)`. -/
lemma normalCdf_le_exp (x : ℝ) : normalCdf x ≤ Real.exp (x + 1/2) := by
  have step1 : normalCdf x ≤ ∫ t in Set.Iic x, normalPdf t * Real.exp (x - t) := by
    refine setIntegral_mono_on integrable_normalPdf.integrableOn
      (integrable_pdf_shift x).integrableOn measurableSet_Iic ?_
    intro t ht
    have h1 : (1 : ℝ) ≤ Real.exp (x - t) := by
      rw [Real.one_le_exp_iff]
      simpa using (sub_nonneg.mpr (Set.mem_Iic.mp ht))
    calc normalPdf t = normalPdf t * 1 := by ring
      _ ≤ normalPdf t * Real.exp (x - t) :=
          mul_le_mul_of_nonneg_left h1 (normalPdf_nonneg t)
  have step2 : ∫ t in Set.Iic x, normalPdf t * Real.exp (x - t) ≤
      ∫ t, normalPdf t * Real.exp (x - t) := by
    refine setIntegral_le_integral (integrable_pdf_shift x) ?_
    filter_upwards with t
    exact mul_nonneg (normalPdf_nonneg t) (Real.exp_pos _).le
  have step3 : ∫ t, normalPdf t * Real.exp (x - t) = Real.exp (x + 1/2) := by
    have e : (fun t : ℝ => normalPdf t * Real.exp (x - t)) = fun t : ℝ =>
        ((Real.sqrt (2 * Real.pi))⁻¹ * Real.exp (x + 1/2)) *
          Real.exp (-(1/2) * (t + 1) ^ 2) := by
      funext t; unfold normalPdf
      rw [mul_assoc, ← Real.exp_add, mul_assoc, ← Real.exp_add]
      congr 1; ring_nf
    rw [e, MeasureTheory.integral_mul_left]
    have shift : (∫ t : ℝ, Real.exp (-(1/2) * (t + 1) ^ 2)) =
        ∫ u : ℝ, Real.exp (-(1/2) * u ^ 2) :=
      MeasureTheory.integral_add_right_eq_self
        (fun u : ℝ => Real.exp (-(1/2) * u ^ 2)) 1
    rw [shift, integral_gaussian]
    have h2 : Real.pi / (1/2) = 2 * Real.pi := by ring
    rw [h2, mul_comm ((Real.sqrt (2 * Real.pi))⁻¹) _, mul_assoc,
      inv_mul_cancel₀ (ne_of_gt sqrt_two_pi_pos), mul_one]
  calc normalCdf x ≤ ∫ t in Set.Iic x, normalPdf t * Real.exp (x - t) := step1
    _ ≤ ∫ t, normalPdf t * Real.exp (x - t) := step2
    _ = Real.exp (x + 1/2) := step3

/-- Python `s.lower().strip()` as applied to the option side argument:
lowercase every character, then drop leading and trailing whitespace. -/
def normalizeSide (s : String) : String :=
  ⟨(((s.data.map Char.toLower).dropWhile
      Char.isWhitespace).reverse.dropWhile Char.isWhitespace).reverse⟩

/-- The normalized side is one of the two accepted strings. -/
def validSide (s : String) : Bool :=
  normalizeSide s == "call" || normalizeSide s == "put"

/-- `_validate_inputs` from `black_scholes.py`: returns the error message of
the first violated check, if any. -/
noncomputable def validate_inputs (S K T sigma : ℝ) : Option String :=
  if S ≤ 0 then some "Spot S must be > 0."
  else if K ≤ 0 then some "Strike K must be > 0."
  else if T < 0 then some "Time to maturity T must be >= 0."
  else if sigma < 0 then some "Volatility sigma must be >= 0."
  else none

/-- The quantity `d1` of the Black–Scholes closed form, as written in both
`black_scholes_price` and `black_scholes_vega`. -/
noncomputable def bs_d1 (S K T r q sigma : ℝ) : ℝ :=
  (Real.log (S / K) + (r - q + 0.5 * sigma * sigma) * T) /
    (sigma * Real.sqrt T)

/-- The quantity `d2 = d1 - sigma * sqrt T`. -/
noncomputable def bs_d2 (S K T r q sigma : ℝ) : ℝ :=
  bs_d1 S K T r q sigma - sigma * Real.sqrt T

/-- `black_scholes_price` from `black_scholes.py`. -/
noncomputable def black_scholes_price (option_type : String)
    (S K T r q sigma : ℝ) : Except String ℝ :=
  let ot := normalizeSide option_type
  if ot ≠ "call" ∧ ot ≠ "put" then
    .error "option_type must be call or put."
  else
    match validate_inputs S K T sigma with
    | some e => .error e
    | none =>
      if T = 0 then
        .ok (if ot = "call" then max (S - K) 0 else max (K - S) 0)
      else if sigma = 0 then
        let forward_T := S * Real.exp ((r - q) * T)
        let disc := Real.exp (-r * T)
        .ok (if ot = "call" then disc * max (forward_T - K) 0
             else disc * max (K - forward_T) 0)
      else
        let d1 := bs_d1 S K T r q sigma
        let d2 := bs_d2 S K T r q sigma
        let disc_q := Real.exp (-q * T)
        let disc_r := Real.exp (-r * T)
        .ok (if ot = "call" then
              S * disc_q * normalCdf d1 - K * disc_r * normalCdf d2
             else
              K * disc_r * normalCdf (-d2) - S * disc_q * normalCdf (-d1))

/-- `black_scholes_vega` from `black_scholes.py`. -/
noncomputable def black_scholes_vega (S K T r q sigma : ℝ) :
    Except String ℝ :=
  match validate_inputs S K T sigma with
  | some e => .error e
  | none =>
    if T = 0 ∨ sigma = 0 then .ok 0
    else
      .ok (S * Real.exp (-q * T) * normalPdf (bs_d1 S K T r q sigma) *
        Real.sqrt T)

/-- `_no_arbitrage_bounds` from `implied_vol.py` (called with an already
normalized option side). -/
noncomputable def no_arbitrage_bounds (option_type : String)
    (S K T r q : ℝ) : ℝ × ℝ :=
  let disc_q := Real.exp (-q * T)
  let disc_r := Real.exp (-r * T)
  if option_type = "call" then
    (max 0 (S * disc_q - K * disc_r), S * disc_q)
  else
    (max 0 (K * disc_r - S * disc_q), K * disc_r)

/-- A Python float result that is either an ordinary value or NaN. -/
inductive PyFloat where
  | val (x : ℝ)
  | nan

/-- The `for` loop of `implied_vol_newton`, with the remaining iteration
count as fuel; exhausting the fuel is falling out of the loop and returning
NaN. -/
noncomputable def newton_loop (ot : String)
    (market_price S K T r q tol vega_floor sigma_min sigma_max : ℝ) :
    Nat → ℝ → Except String PyFloat
  | 0, _ => .ok .nan
  | n + 1, sigma =>
    match black_scholes_price ot S K T r q sigma with
    | .error e => .error e
    | .ok price =>
      let diff := price - market_price
      if |diff| < tol then .ok (.val sigma)
      else
        match black_scholes_vega S K T r q sigma with
        | .error e => .error e
        | .ok vega =>
          if vega < vega_floor then .ok .nan
          else
            let sigma2 := sigma - diff / vega
            if sigma2 < sigma_min ∨ sigma2 > sigma_max then .ok .nan
            else newton_loop ot market_price S K T r q tol vega_floor
              sigma_min sigma_max n sigma2

/-- `implied_vol_newton` from `implied_vol.py`, with every keyword argument
explicit. -/
noncomputable def implied_vol_newton (option_type : String)
    (market_price S K T r q initial_sigma tol : ℝ) (max_iter : Nat)
    (vega_floor sigma_min sigma_max : ℝ) (enforce_bounds : Bool) :
    Except String PyFloat :=
  let ot := normalizeSide option_type
  if ot ≠ "call" ∧ ot ≠ "put" then
    .error "option_type must be call or put."
  else if market_price < 0 then .ok .nan
  else if T ≤ 0 then .ok .nan
  else if enforce_bounds = true ∧
      ¬((no_arbitrage_bounds ot S K T r q).1 - 1e-12 ≤ market_price ∧
        market_price ≤ (no_arbitrage_bounds ot S K T r q).2 + 1e-12) then
    .ok .nan
  else
    let sigma := min (max initial_sigma sigma_min) sigma_max
    newton_loop ot market_price S K T r q tol vega_floor sigma_min sigma_max
      max_iter sigma

/-- The `for` loop of `implied_vol_bisection`, with remaining iterations as
fuel; state is `(low, high, f_low, f_high)`. -/
noncomputable def bisect_loop (ot : String) (market_price S K T r q tol : ℝ) :
    Nat → ℝ → ℝ → ℝ → ℝ → Except String PyFloat
  | 0, _, _, _, _ => .ok .nan
  | n + 1, low, high, f_low, f_high =>
    let mid := 0.5 * (low + high)
    match black_scholes_price ot S K T r q mid with
    | .error e => .error e
    | .ok pm =>
      let f_mid := pm - market_price
      if |f_mid| < tol ∨ high - low < tol then .ok (.val mid)
      else if f_low * f_mid ≤ 0 then
        bisect_loop ot market_price S K T r q tol n low mid f_low f_mid
      else
        bisect_loop ot market_price S K T r q tol n mid high f_mid f_high

/-- `implied_vol_bisection` from `implied_vol.py`, with every keyword
argument explicit. -/
noncomputable def implied_vol_bisection (option_type : String)
    (market_price S K T r q tol : ℝ) (max_iter : Nat)
    (sigma_low sigma_high : ℝ) (enforce_bounds : Bool) :
    Except String PyFloat :=
  let ot := normalizeSide option_type
  if ot ≠ "call" ∧ ot ≠ "put" then
    .error "option_type must be call or put."
  else if market_price < 0 ∨ T ≤ 0 then .ok .nan
  else if enforce_bounds = true ∧
      ¬((no_arbitrage_bounds ot S K T r q).1 - 1e-12 ≤ market_price ∧
        market_price ≤ (no_arbitrage_bounds ot S K T r q).2 + 1e-12) then
    .ok .nan
  else
    match black_scholes_price ot S K T r q sigma_low with
    | .error e => .error e
    | .ok p_low =>
      match black_scholes_price ot S K T r q sigma_high with
      | .error e => .error e
      | .ok p_high =>
        let f_low := p_low - market_price
        let f_high := p_high - market_price
        if f_low * f_high > 0 then .ok .nan
        else bisect_loop ot market_price S K T r q tol max_iter
          sigma_low sigma_high f_low f_high

/-- `implied_vol` from `implied_vol.py`: Newton first, bisection on NaN,
with the source defaults filled in. -/
noncomputable def implied_vol (option_type : String)
    (market_price S K T r q initial_sigma : ℝ) : Except String PyFloat :=
  match implied_vol_newton option_type market_price S K T r q initial_sigma
      1e-7 100 1e-10 1e-6 5.0 true with
  | .error e => .error e
  | .ok (.val s) => .ok (.val s)
  | .ok .nan =>
    implied_vol_bisection option_type market_price S K T r q
      1e-7 200 1e-6 5.0 true


lemma normalizeSide_call : normalizeSide "call" = "call" := by decide

lemma normalizeSide_put : normalizeSide "put" = "put" := by decide

lemma call_side_if : ¬(("call" : String) ≠ "call" ∧ ("call" : String) ≠ "put") := by
  decide

lemma put_side_if : ¬(("put" : String) ≠ "call" ∧ ("put" : String) ≠ "put") := by
  decide

lemma side_if_false {a : String} (h : a = "call" ∨ a = "put") :
    ¬(a ≠ "call" ∧ a ≠ "put") := by
  tauto

lemma validate_inputs_none {S K T sigma : ℝ} (hS : 0 < S) (hK : 0 < K)
    (hT : 0 ≤ T) (hs : 0 ≤ sigma) : validate_inputs S K T sigma = none := by
  unfold validate_inputs
  rw [if_neg (not_le.mpr hS), if_neg (not_le.mpr hK),
    if_neg (not_lt.mpr hT), if_neg (not_lt.mpr hs)]

lemma validate_inputs_some {S K T sigma : ℝ}
    (h : S ≤ 0 ∨ K ≤ 0 ∨ T < 0 ∨ sigma < 0) :
    ∃ e, validate_inputs S K T sigma = some e := by
  unfold validate_inputs
  by_cases h1 : S ≤ 0
  · exact ⟨_, if_pos h1⟩
  · rw [if_neg h1]
    by_cases h2 : K ≤ 0
    · exact ⟨_, if_pos h2⟩
    · rw [if_neg h2]
      by_cases h3 : T < 0
      · exact ⟨_, if_pos h3⟩
      · rw [if_neg h3]
        by_cases h4 : sigma < 0
        · exact ⟨_, if_pos h4⟩
        · tauto

lemma price_T0_call {s : String} {S K r q sigma : ℝ}
    (h : normalizeSide s = "call") (hS : 0 < S) (hK : 0 < K)
    (hs : 0 ≤ sigma) :
    black_scholes_price s S K 0 r q sigma = .ok (max (S - K) 0) := by
  unfold black_scholes_price
  simp only [h]
  rw [if_neg call_side_if, validate_inputs_none hS hK le_rfl hs]
  simp

lemma price_T0_put {s : String} {S K r q sigma : ℝ}
    (h : normalizeSide s = "put") (hS : 0 < S) (hK : 0 < K)
    (hs : 0 ≤ sigma) :
    black_scholes_price s S K 0 r q sigma = .ok (max (K - S) 0) := by
  unfold black_scholes_price
  simp only [h]
  rw [if_neg put_side_if, validate_inputs_none hS hK le_rfl hs]
  simp

lemma price_sigma0_call {s : String} {S K T r q : ℝ}
    (h : normalizeSide s = "call") (hS : 0 < S) (hK : 0 < K) (hT : 0 < T) :
    black_scholes_price s S K T r q 0 =
      .ok (Real.exp (-r * T) * max (S * Real.exp ((r - q) * T) - K) 0) := by
  unfold black_scholes_price
  simp only [h]
  rw [if_neg call_side_if, validate_inputs_none hS hK hT.le le_rfl]
  simp [hT.ne']

lemma price_sigma0_put {s : String} {S K T r q : ℝ}
    (h : normalizeSide s = "put") (hS : 0 < S) (hK : 0 < K) (hT : 0 < T) :
    black_scholes_price s S K T r q 0 =
      .ok (Real.exp (-r * T) * max (K - S * Real.exp ((r - q) * T)) 0) := by
  unfold black_scholes_price
  simp only [h]
  rw [if_neg put_side_if, validate_inputs_none hS hK hT.le le_rfl]
  simp [hT.ne']

lemma price_main_call {s : String} {S K T r q sigma : ℝ}
    (h : normalizeSide s = "call") (hS : 0 < S) (hK : 0 < K) (hT : 0 < T)
    (hs : 0 < sigma) :
    black_scholes_price s S K T r q sigma =
      .ok (S * Real.exp (-q * T) * normalCdf (bs_d1 S K T r q sigma) -
           K * Real.exp (-r * T) * normalCdf (bs_d2 S K T r q sigma)) := by
  unfold black_scholes_price
  simp only [h]
  rw [if_neg call_side_if, validate_inputs_none hS hK hT.le hs.le]
  simp [hT.ne', hs.ne']

lemma price_main_put {s : String} {S K T r q sigma : ℝ}
    (h : normalizeSide s = "put") (hS : 0 < S) (hK : 0 < K) (hT : 0 < T)
    (hs : 0 < sigma) :
    black_scholes_price s S K T r q sigma =
      .ok (K * Real.exp (-r * T) * normalCdf (-(bs_d2 S K T r q sigma)) -
           S * Real.exp (-q * T) * normalCdf (-(bs_d1 S K T r q sigma))) := by
  unfold black_scholes_price
  simp only [h]
  rw [if_neg put_side_if, validate_inputs_none hS hK hT.le hs.le]
  simp [hT.ne', hs.ne']

lemma price_isOk {s : String} {S K T r q sigma : ℝ}
    (h : normalizeSide s = "call" ∨ normalizeSide s = "put")
    (hS : 0 < S) (hK : 0 < K) (hT : 0 ≤ T) (hs : 0 ≤ sigma) :
    ∃ p, black_scholes_price s S K T r q sigma = .ok p := by
  rcases eq_or_lt_of_le hT with hT0 | hTpos
  · rcases h with h | h
    · exact ⟨_, hT0 ▸ price_T0_call h hS hK hs⟩
    · exact ⟨_, hT0 ▸ price_T0_put h hS hK hs⟩
  · rcases eq_or_lt_of_le hs with hs0 | hspos
    · rcases h with h | h
      · exact ⟨_, hs0 ▸ price_sigma0_call h hS hK hTpos⟩
      · exact ⟨_, hs0 ▸ price_sigma0_put h hS hK hTpos⟩
    · rcases h with h | h
      · exact ⟨_, price_main_call h hS hK hTpos hspos⟩
      · exact ⟨_, price_main_put h hS hK hTpos hspos⟩

lemma vega_ok_degenerate {S K T r q sigma : ℝ} (hS : 0 < S) (hK : 0 < K)
    (hT : 0 ≤ T) (hs : 0 ≤ sigma) (hd : T = 0 ∨ sigma = 0) :
    black_scholes_vega S K T r q sigma = .ok 0 := by
  unfold black_scholes_vega
  rw [validate_inputs_none hS hK hT hs]
  simp [if_pos hd]

lemma vega_ok_main {S K T r q sigma : ℝ} (hS : 0 < S) (hK : 0 < K)
    (hT : 0 ≤ T) (hs : 0 ≤ sigma) (hd : ¬(T = 0 ∨ sigma = 0)) :
    black_scholes_vega S K T r q sigma =
      .ok (S * Real.exp (-q * T) * normalPdf (bs_d1 S K T r q sigma) *
        Real.sqrt T) := by
  unfold black_scholes_vega
  rw [validate_inputs_none hS hK hT hs]
  simp [if_neg hd]

lemma vega_isOk {S K T r q sigma : ℝ}
    (hS : 0 < S) (hK : 0 < K) (hT : 0 ≤ T) (hs : 0 ≤ sigma) :
    ∃ v, black_scholes_vega S K T r q sigma = .ok v := by
  by_cases hd : T = 0 ∨ sigma = 0
  · exact ⟨_, vega_ok_degenerate hS hK hT hs hd⟩
  · exact ⟨_, vega_ok_main hS hK hT hs hd⟩

lemma newton_err_side {s : String} {mp S K T r q init tol vf smin smax : ℝ}
    {max_iter : Nat} {enf : Bool}
    (h : ¬(normalizeSide s = "call" ∨ normalizeSide s = "put")) :
    implied_vol_newton s mp S K T r q init tol max_iter vf smin smax enf =
      .error "option_type must be call or put." := by
  have hc : normalizeSide s ≠ "call" ∧ normalizeSide s ≠ "put" := by tauto
  unfold implied_vol_newton
  simp only []
  rw [if_pos hc]

lemma newton_nan_mp_neg {s : String} {mp S K T r q init tol vf smin smax : ℝ}
    {max_iter : Nat} {enf : Bool}
    (hside : normalizeSide s = "call" ∨ normalizeSide s = "put")
    (h : mp < 0) :
    implied_vol_newton s mp S K T r q init tol max_iter vf smin smax enf =
      .ok .nan := by
  unfold implied_vol_newton
  simp only []
  rw [if_neg (side_if_false hside), if_pos h]

lemma newton_nan_T {s : String} {mp S K T r q init tol vf smin smax : ℝ}
    {max_iter : Nat} {enf : Bool}
    (hside : normalizeSide s = "call" ∨ normalizeSide s = "put")
    (hmp : ¬(mp < 0)) (hT : T ≤ 0) :
    implied_vol_newton s mp S K T r q init tol max_iter vf smin smax enf =
      .ok .nan := by
  unfold implied_vol_newton
  simp only []
  rw [if_neg (side_if_false hside), if_neg hmp, if_pos hT]

lemma newton_nan_bounds {s : String} {mp S K T r q init tol vf smin smax : ℝ}
    {max_iter : Nat} {enf : Bool}
    (hside : normalizeSide s = "call" ∨ normalizeSide s = "put")
    (hmp : ¬(mp < 0)) (hT : ¬(T ≤ 0))
    (hb : enf = true ∧
      ¬((no_arbitrage_bounds (normalizeSide s) S K T r q).1 - 1e-12 ≤ mp ∧
        mp ≤ (no_arbitrage_bounds (normalizeSide s) S K T r q).2 + 1e-12)) :
    implied_vol_newton s mp S K T r q init tol max_iter vf smin smax enf =
      .ok .nan := by
  unfold implied_vol_newton
  simp only []
  rw [if_neg (side_if_false hside), if_neg hmp, if_neg hT, if_pos hb]

lemma newton_run {s : String} {mp S K T r q init tol vf smin smax : ℝ}
    {max_iter : Nat} {enf : Bool}
    (hside : normalizeSide s = "call" ∨ normalizeSide s = "put")
    (hmp : ¬(mp < 0)) (hT : ¬(T ≤ 0))
    (hb : ¬(enf = true ∧
      ¬((no_arbitrage_bounds (normalizeSide s) S K T r q).1 - 1e-12 ≤ mp ∧
        mp ≤ (no_arbitrage_bounds (normalizeSide s) S K T r q).2 + 1e-12))) :
    implied_vol_newton s mp S K T r q init tol max_iter vf smin smax enf =
      newton_loop (normalizeSide s) mp S K T r q tol vf smin smax max_iter
        (min (max init smin) smax) := by
  unfold implied_vol_newton
  simp only []
  rw [if_neg (side_if_false hside), if_neg hmp, if_neg hT, if_neg hb]

lemma newton_loop_zero {ot : String} {mp S K T r q tol vf smin smax sigma : ℝ} :
    newton_loop ot mp S K T r q tol vf smin smax 0 sigma = .ok .nan := by
  unfold newton_loop
  rfl

lemma newton_loop_succ_conv {ot : String}
    {mp S K T r q tol vf smin smax sigma p : ℝ} {n : Nat}
    (hp : black_scholes_price ot S K T r q sigma = .ok p)
    (h : |p - mp| < tol) :
    newton_loop ot mp S K T r q tol vf smin smax (n + 1) sigma =
      .ok (.val sigma) := by
  unfold newton_loop
  rw [hp]
  simp only []
  rw [if_pos h]

lemma newton_loop_succ_vega_small {ot : String}
    {mp S K T r q tol vf smin smax sigma p v : ℝ} {n : Nat}
    (hp : black_scholes_price ot S K T r q sigma = .ok p)
    (h1 : ¬(|p - mp| < tol))
    (hv : black_scholes_vega S K T r q sigma = .ok v) (h2 : v < vf) :
    newton_loop ot mp S K T r q tol vf smin smax (n + 1) sigma = .ok .nan := by
  unfold newton_loop
  rw [hp]
  simp only []
  rw [if_neg h1, hv]
  simp only []
  rw [if_pos h2]

lemma newton_loop_succ_out {ot : String}
    {mp S K T r q tol vf smin smax sigma p v : ℝ} {n : Nat}
    (hp : black_scholes_price ot S K T r q sigma = .ok p)
    (h1 : ¬(|p - mp| < tol))
    (hv : black_scholes_vega S K T r q sigma = .ok v) (h2 : ¬(v < vf))
    (h3 : sigma - (p - mp) / v < smin ∨ sigma - (p - mp) / v > smax) :
    newton_loop ot mp S K T r q tol vf smin smax (n + 1) sigma = .ok .nan := by
  unfold newton_loop
  rw [hp]
  simp only []
  rw [if_neg h1, hv]
  simp only []
  rw [if_neg h2, if_pos h3]

lemma newton_loop_succ_step {ot : String}
    {mp S K T r q tol vf smin smax sigma p v : ℝ} {n : Nat}
    (hp : black_scholes_price ot S K T r q sigma = .ok p)
    (h1 : ¬(|p - mp| < tol))
    (hv : black_scholes_vega S K T r q sigma = .ok v) (h2 : ¬(v < vf))
    (h3 : ¬(sigma - (p - mp) / v < smin ∨ sigma - (p - mp) / v > smax)) :
    newton_loop ot mp S K T r q tol vf smin smax (n + 1) sigma =
      newton_loop ot mp S K T r q tol vf smin smax n
        (sigma - (p - mp) / v) := by
  conv_lhs => unfold newton_loop
  rw [hp]
  simp only []
  rw [if_neg h1, hv]
  simp only []
  rw [if_neg h2, if_neg h3]

lemma bisect_err_side {s : String} {mp S K T r q tol slo shi : ℝ}
    {max_iter : Nat} {enf : Bool}
    (h : ¬(normalizeSide s = "call" ∨ normalizeSide s = "put")) :
    implied_vol_bisection s mp S K T r q tol max_iter slo shi enf =
      .error "option_type must be call or put." := by
  have hc : normalizeSide s ≠ "call" ∧ normalizeSide s ≠ "put" := by tauto
  unfold implied_vol_bisection
  simp only []
  rw [if_pos hc]

lemma bisect_nan_early {s : String} {mp S K T r q tol slo shi : ℝ}
    {max_iter : Nat} {enf : Bool}
    (hside : normalizeSide s = "call" ∨ normalizeSide s = "put")
    (h : mp < 0 ∨ T ≤ 0) :
    implied_vol_bisection s mp S K T r q tol max_iter slo shi enf =
      .ok .nan := by
  unfold implied_vol_bisection
  simp only []
  rw [if_neg (side_if_false hside), if_pos h]

lemma bisect_nan_bounds {s : String} {mp S K T r q tol slo shi : ℝ}
    {max_iter : Nat} {enf : Bool}
    (hside : normalizeSide s = "call" ∨ normalizeSide s = "put")
    (h1 : ¬(mp < 0 ∨ T ≤ 0))
    (hb : enf = true ∧
      ¬((no_arbitrage_bounds (normalizeSide s) S K T r q).1 - 1e-12 ≤ mp ∧
        mp ≤ (no_arbitrage_bounds (normalizeSide s) S K T r q).2 + 1e-12)) :
    implied_vol_bisection s mp S K T r q tol max_iter slo shi enf =
      .ok .nan := by
  unfold implied_vol_bisection
  simp only []
  rw [if_neg (side_if_false hside), if_neg h1, if_pos hb]

lemma bisect_nan_no_bracket {s : String} {mp S K T r q tol slo shi pl ph : ℝ}
    {max_iter : Nat} {enf : Bool}
    (hside : normalizeSide s = "call" ∨ normalizeSide s = "put")
    (h1 : ¬(mp < 0 ∨ T ≤ 0))
    (hb : ¬(enf = true ∧
      ¬((no_arbitrage_bounds (normalizeSide s) S K T r q).1 - 1e-12 ≤ mp ∧
        mp ≤ (no_arbitrage_bounds (normalizeSide s) S K T r q).2 + 1e-12)))
    (hpl : black_scholes_price (normalizeSide s) S K T r q slo = .ok pl)
    (hph : black_scholes_price (normalizeSide s) S K T r q shi = .ok ph)
    (hsign : (pl - mp) * (ph - mp) > 0) :
    implied_vol_bisection s mp S K T r q tol max_iter slo shi enf =
      .ok .nan := by
  unfold implied_vol_bisection
  simp only []
  rw [if_neg (side_if_false hside), if_neg h1, if_neg hb, hpl]
  simp only []
  rw [hph]
  simp only []
  rw [if_pos hsign]

lemma bisect_run {s : String} {mp S K T r q tol slo shi pl ph : ℝ}
    {max_iter : Nat} {enf : Bool}
    (hside : normalizeSide s = "call" ∨ normalizeSide s = "put")
    (h1 : ¬(mp < 0 ∨ T ≤ 0))
    (hb : ¬(enf = true ∧
      ¬((no_arbitrage_bounds (normalizeSide s) S K T r q).1 - 1e-12 ≤ mp ∧
        mp ≤ (no_arbitrage_bounds (normalizeSide s) S K T r q).2 + 1e-12)))
    (hpl : black_scholes_price (normalizeSide s) S K T r q slo = .ok pl)
    (hph : black_scholes_price (normalizeSide s) S K T r q shi = .ok ph)
    (hsign : ¬((pl - mp) * (ph - mp) > 0)) :
    implied_vol_bisection s mp S K T r q tol max_iter slo shi enf =
      bisect_loop (normalizeSide s) mp S K T r q tol max_iter slo shi
        (pl - mp) (ph - mp) := by
  unfold implied_vol_bisection
  simp only []
  rw [if_neg (side_if_false hside), if_neg h1, if_neg hb, hpl]
  simp only []
  rw [hph]
  simp only []
  rw [if_neg hsign]

lemma bisect_loop_zero {ot : String} {mp S K T r q tol low high fl fh : ℝ} :
    bisect_loop ot mp S K T r q tol 0 low high fl fh = .ok .nan := by
  unfold bisect_loop
  rfl

lemma bisect_loop_succ_conv {ot : String}
    {mp S K T r q tol low high fl fh pm : ℝ} {n : Nat}
    (hp : black_scholes_price ot S K T r q (0.5 * (low + high)) = .ok pm)
    (h : |pm - mp| < tol ∨ high - low < tol) :
    bisect_loop ot mp S K T r q tol (n + 1) low high fl fh =
      .ok (.val (0.5 * (low + high))) := by
  unfold bisect_loop
  simp only []
  rw [hp]
  simp only []
  rw [if_pos h]

lemma bisect_loop_succ_lower {ot : String}
    {mp S K T r q tol low high fl fh pm : ℝ} {n : Nat}
    (hp : black_scholes_price ot S K T r q (0.5 * (low + high)) = .ok pm)
    (h1 : ¬(|pm - mp| < tol ∨ high - low < tol))
    (h2 : fl * (pm - mp) ≤ 0) :
    bisect_loop ot mp S K T r q tol (n + 1) low high fl fh =
      bisect_loop ot mp S K T r q tol n low (0.5 * (low + high)) fl
        (pm - mp) := by
  conv_lhs => unfold bisect_loop
  simp only []
  rw [hp]
  simp only []
  rw [if_neg h1, if_pos h2]

lemma bisect_loop_succ_upper {ot : String}
    {mp S K T r q tol low high fl fh pm : ℝ} {n : Nat}
    (hp : black_scholes_price ot S K T r q (0.5 * (low + high)) = .ok pm)
    (h1 : ¬(|pm - mp| < tol ∨ high - low < tol))
    (h2 : ¬(fl * (pm - mp) ≤ 0)) :
    bisect_loop ot mp S K T r q tol (n + 1) low high fl fh =
      bisect_loop ot mp S K T r q tol n (0.5 * (low + high)) high
        (pm - mp) fh := by
  conv_lhs => unfold bisect_loop
  simp only []
  rw [hp]
  simp only []
  rw [if_neg h1, if_neg h2]

lemma newton_loop_ok {ot : String} {mp S K T r q tol vf smin smax : ℝ}
    (h : normalizeSide ot = "call" ∨ normalizeSide ot = "put")
    (hS : 0 < S) (hK : 0 < K) (hT : 0 < T) (hsmin : 0 < smin) :
    ∀ n sigma, smin ≤ sigma → sigma ≤ smax →
      ∃ res, newton_loop ot mp S K T r q tol vf smin smax n sigma =
        .ok res := by
  intro n
  induction n with
  | zero => exact fun sigma _ _ => ⟨.nan, newton_loop_zero⟩
  | succ n ih =>
    intro sigma hlo hhi
    obtain ⟨p, hp⟩ := price_isOk h hS hK hT.le (le_trans hsmin.le hlo)
    by_cases hc : |p - mp| < tol
    · exact ⟨.val sigma, newton_loop_succ_conv hp hc⟩
    · obtain ⟨v, hv⟩ := vega_isOk hS hK hT.le (le_trans hsmin.le hlo)
      by_cases h2 : v < vf
      · exact ⟨.nan, newton_loop_succ_vega_small hp hc hv h2⟩
      · by_cases h3 : sigma - (p - mp) / v < smin ∨ sigma - (p - mp) / v > smax
        · exact ⟨.nan, newton_loop_succ_out hp hc hv h2 h3⟩
        · push_neg at h3
          obtain ⟨res, hres⟩ := ih (sigma - (p - mp) / v) h3.1 h3.2
          exact ⟨res, (newton_loop_succ_step hp hc hv h2 (by push_neg; exact h3)).trans hres⟩

lemma bisect_loop_ok {ot : String} {mp S K T r q tol : ℝ}
    (h : normalizeSide ot = "call" ∨ normalizeSide ot = "put")
    (hS : 0 < S) (hK : 0 < K) (hT : 0 < T) :
    ∀ n low high fl fh, 0 < low → 0 < high →
      ∃ res, bisect_loop ot mp S K T r q tol n low high fl fh = .ok res := by
  intro n
  induction n with
  | zero => exact fun _ _ _ _ _ _ => ⟨.nan, bisect_loop_zero⟩
  | succ n ih =>
    intro low high fl fh hlo hhi
    have hmid : (0:ℝ) < 0.5 * (low + high) := by linarith
    obtain ⟨pm, hp⟩ := price_isOk h hS hK hT.le hmid.le
    by_cases hc : |pm - mp| < tol ∨ high - low < tol
    · exact ⟨.val (0.5 * (low + high)), bisect_loop_succ_conv hp hc⟩
    · by_cases h2 : fl * (pm - mp) ≤ 0
      · obtain ⟨res, hres⟩ := ih low (0.5 * (low + high)) fl (pm - mp) hlo hmid
        exact ⟨res, (bisect_loop_succ_lower hp hc h2).trans hres⟩
      · obtain ⟨res, hres⟩ := ih (0.5 * (low + high)) high (pm - mp) fh hmid hhi
        exact ⟨res, (bisect_loop_succ_upper hp hc h2).trans hres⟩

lemma normalizeSide_idem {s : String}
    (h : normalizeSide s = "call" ∨ normalizeSide s = "put") :
    normalizeSide (normalizeSide s) = "call" ∨
      normalizeSide (normalizeSide s) = "put" := by
  rcases h with h | h <;> rw [h]
  · exact Or.inl normalizeSide_call
  · exact Or.inr normalizeSide_put

lemma newton_ok_of_validSide {s : String}
    {mp S K T r q init tol vf smin smax : ℝ} {max_iter : Nat} {enf : Bool}
    (hside : normalizeSide s = "call" ∨ normalizeSide s = "put")
    (hS : 0 < S) (hK : 0 < K) (hsmin : 0 < smin) (hms : smin ≤ smax) :
    ∃ res, implied_vol_newton s mp S K T r q init tol max_iter vf smin smax
      enf = .ok res := by
  by_cases hmp : mp < 0
  · exact ⟨.nan, newton_nan_mp_neg hside hmp⟩
  by_cases hT : T ≤ 0
  · exact ⟨.nan, newton_nan_T hside hmp hT⟩
  by_cases hb : enf = true ∧
      ¬((no_arbitrage_bounds (normalizeSide s) S K T r q).1 - 1e-12 ≤ mp ∧
        mp ≤ (no_arbitrage_bounds (normalizeSide s) S K T r q).2 + 1e-12)
  · exact ⟨.nan, newton_nan_bounds hside hmp hT hb⟩
  obtain ⟨res, hres⟩ : ∃ res, newton_loop (normalizeSide s) mp S K T r q
      tol vf smin smax max_iter (min (max init smin) smax) = .ok res :=
    newton_loop_ok (normalizeSide_idem hside) hS hK (not_le.mp hT) hsmin
      max_iter (min (max init smin) smax)
      (le_min (le_max_right _ _) hms) (min_le_right _ _)
  exact ⟨res, (newton_run hside hmp hT hb).trans hres⟩

lemma bisection_ok_of_validSide {s : String}
    {mp S K T r q tol slo shi : ℝ} {max_iter : Nat} {enf : Bool}
    (hside : normalizeSide s = "call" ∨ normalizeSide s = "put")
    (hS : 0 < S) (hK : 0 < K) (hlo : 0 < slo) (hhi : 0 < shi) :
    ∃ res, implied_vol_bisection s mp S K T r q tol max_iter slo shi enf =
      .ok res := by
  by_cases h1 : mp < 0 ∨ T ≤ 0
  · exact ⟨.nan, bisect_nan_early hside h1⟩
  by_cases hb : enf = true ∧
      ¬((no_arbitrage_bounds (normalizeSide s) S K T r q).1 - 1e-12 ≤ mp ∧
        mp ≤ (no_arbitrage_bounds (normalizeSide s) S K T r q).2 + 1e-12)
  · exact ⟨.nan, bisect_nan_bounds hside h1 hb⟩
  push_neg at h1
  have hT : 0 < T := h1.2
  obtain ⟨pl, hpl⟩ := price_isOk (normalizeSide_idem hside) hS hK hT.le hlo.le
  obtain ⟨ph, hph⟩ := price_isOk (normalizeSide_idem hside) hS hK hT.le hhi.le
  by_cases hsign : (pl - mp) * (ph - mp) > 0
  · exact ⟨.nan, bisect_nan_no_bracket hside (by push_neg; exact h1) hb hpl hph hsign⟩
  obtain ⟨res, hres⟩ : ∃ res, bisect_loop (normalizeSide s) mp S K T r q
      tol max_iter slo shi (pl - mp) (ph - mp) = .ok res :=
    bisect_loop_ok (normalizeSide_idem hside) hS hK hT max_iter slo shi
      (pl - mp) (ph - mp) hlo hhi
  exact ⟨res, (bisect_run hside (by push_neg; exact h1) hb hpl hph hsign).trans hres⟩

lemma price_err_side {s : String} {S K T r q sigma : ℝ}
    (h : ¬(normalizeSide s = "call" ∨ normalizeSide s = "put")) :
    black_scholes_price s S K T r q sigma =
      .error "option_type must be call or put." := by
  have hc : normalizeSide s ≠ "call" ∧ normalizeSide s ≠ "put" := by tauto
  unfold black_scholes_price
  simp only []
  rw [if_pos hc]

/-- C2: the top-level `implied_vol` first runs `implied_vol_newton`; it runs
`implied_vol_bisection` if and only if Newton reports NaN, and otherwise
returns Newton's result (value or error) unchanged. -/
theorem implied_vol_dispatch (s : String) (mp S K T r q init : ℝ) :
    (∀ v, implied_vol_newton s mp S K T r q init 1e-7 100 1e-10 1e-6 5.0
        true = .ok (.val v) →
      implied_vol s mp S K T r q init = .ok (.val v)) ∧
    (implied_vol_newton s mp S K T r q init 1e-7 100 1e-10 1e-6 5.0 true =
        .ok .nan →
      implied_vol s mp S K T r q init =
        implied_vol_bisection s mp S K T r q 1e-7 200 1e-6 5.0 true) ∧
    (∀ e, implied_vol_newton s mp S K T r q init 1e-7 100 1e-10 1e-6 5.0
        true = .error e →
      implied_vol s mp S K T r q init = .error e) := by
  refine ⟨fun v hv => ?_, fun h => ?_, fun e he => ?_⟩ <;>
    unfold implied_vol
  · rw [hv]
  · rw [h]
  · rw [he]

/-- Witness for C2 at a concrete input: a negative market price makes Newton
report NaN, so `implied_vol` hands over to bisection. -/
theorem implied_vol_dispatch_witness :
    implied_vol "call" (-1) 1 1 1 0 0 0.2 =
      implied_vol_bisection "call" (-1) 1 1 1 0 0 1e-7 200 1e-6 5.0 true :=
  (implied_vol_dispatch "call" (-1) 1 1 1 0 0 0.2).2.1
    (newton_nan_mp_neg (Or.inl normalizeSide_call) (by norm_num))

/-- C4: with a valid side, both solvers return the NaN sentinel when the
market price is negative, when T ≤ 0, or — with bounds enforcement on —
when the market price is more than 1e-12 outside the no-arbitrage
bounds. -/
theorem solver_immediate_rejection (s : String)
    (mp S K T r q init tol vf smin smax slo shi : ℝ)
    (max_iterN max_iterB : Nat) (enf : Bool)
    (hside : normalizeSide s = "call" ∨ normalizeSide s = "put")
    (hrej : mp < 0 ∨ T ≤ 0 ∨ (enf = true ∧
      (mp < (no_arbitrage_bounds (normalizeSide s) S K T r q).1 - 1e-12 ∨
       (no_arbitrage_bounds (normalizeSide s) S K T r q).2 + 1e-12 < mp))) :
    implied_vol_newton s mp S K T r q init tol max_iterN vf smin smax enf =
      .ok .nan ∧
    implied_vol_bisection s mp S K T r q tol max_iterB slo shi enf =
      .ok .nan := by
  rcases hrej with h | h | ⟨henf, hout⟩
  · exact ⟨newton_nan_mp_neg hside h, bisect_nan_early hside (Or.inl h)⟩
  · constructor
    · by_cases hmp : mp < 0
      · exact newton_nan_mp_neg hside hmp
      · exact newton_nan_T hside hmp h
    · exact bisect_nan_early hside (Or.inr h)
  · have hnotin :
        ¬((no_arbitrage_bounds (normalizeSide s) S K T r q).1 - 1e-12 ≤ mp ∧
          mp ≤ (no_arbitrage_bounds (normalizeSide s) S K T r q).2 + 1e-12) := by
      rintro ⟨ha, hb⟩
      rcases hout with h | h <;> linarith
    constructor
    · by_cases hmp : mp < 0
      · exact newton_nan_mp_neg hside hmp
      · by_cases hT : T ≤ 0
        · exact newton_nan_T hside hmp hT
        · exact newton_nan_bounds hside hmp hT ⟨henf, hnotin⟩
    · by_cases h1 : mp < 0 ∨ T ≤ 0
      · exact bisect_nan_early hside h1
      · exact bisect_nan_bounds hside h1 ⟨henf, hnotin⟩

/-- Witness for C4 at a concrete input: market price −1 is rejected by both
solvers before any iteration. -/
theorem solver_immediate_rejection_witness :
    implied_vol_newton "call" (-1) 1 1 1 0 0 0.2 1e-7 100 1e-10 1e-6 5.0
      true = .ok .nan ∧
    implied_vol_bisection "call" (-1) 1 1 1 0 0 1e-7 200 1e-6 5.0 true =
      .ok .nan :=
  solver_immediate_rejection "call" (-1) 1 1 1 0 0 0.2 1e-7 1e-10 1e-6 5.0
    1e-6 5.0 100 200 true (Or.inl normalizeSide_call) (Or.inl (by norm_num))

/-- C7: at expiry (T = 0) the pricer returns the undiscounted intrinsic
value, in particular 10.0 for the stated call and 0.0 for the stated put. -/
theorem expiry_intrinsic_value (S K r q sigma : ℝ) (hS : 0 < S) (hK : 0 < K)
    (hsig : 0 ≤ sigma) :
    black_scholes_price "call" S K 0 r q sigma = .ok (max (S - K) 0) ∧
    black_scholes_price "put" S K 0 r q sigma = .ok (max (K - S) 0) ∧
    black_scholes_price "call" 100 90 0 0.05 0 0.2 = .ok 10 ∧
    black_scholes_price "put" 100 90 0 0.05 0 0.2 = .ok 0 := by
  refine ⟨price_T0_call normalizeSide_call hS hK hsig,
    price_T0_put normalizeSide_put hS hK hsig, ?_, ?_⟩
  · rw [price_T0_call normalizeSide_call (by norm_num) (by norm_num)
      (by norm_num)]
    norm_num
  · rw [price_T0_put normalizeSide_put (by norm_num) (by norm_num)
      (by norm_num)]
    norm_num

/-- Witness for C7 at a concrete input. -/
theorem expiry_intrinsic_value_witness :
    black_scholes_price "call" 2 1 0 0 0 1 = .ok (max (2 - 1) 0) ∧
    black_scholes_price "put" 2 1 0 0 0 1 = .ok (max (1 - 2) 0) :=
  ⟨(expiry_intrinsic_value 2 1 0 0 1 (by norm_num) (by norm_num)
      (by norm_num)).1,
   (expiry_intrinsic_value 2 1 0 0 1 (by norm_num) (by norm_num)
      (by norm_num)).2.1⟩

/-- C8: with T > 0 and sigma = 0 the pricer returns the discounted payoff of
the deterministic forward `S·exp((r−q)T)`. -/
theorem zero_vol_forward_payoff (S K T r q : ℝ) (hS : 0 < S) (hK : 0 < K)
    (hT : 0 < T) :
    black_scholes_price "call" S K T r q 0 =
      .ok (Real.exp (-r * T) * max (S * Real.exp ((r - q) * T) - K) 0) ∧
    black_scholes_price "put" S K T r q 0 =
      .ok (Real.exp (-r * T) * max (K - S * Real.exp ((r - q) * T)) 0) :=
  ⟨price_sigma0_call normalizeSide_call hS hK hT,
   price_sigma0_put normalizeSide_put hS hK hT⟩

/-- Witness for C8 at a concrete input: with r = q = 0 the forward equals
the spot and the call price is the plain payoff 1. -/
theorem zero_vol_forward_payoff_witness :
    black_scholes_price "call" 2 1 1 0 0 0 = .ok 1 := by
  rw [(zero_vol_forward_payoff 2 1 1 0 0 (by norm_num) (by norm_num)
    (by norm_num)).1]
  norm_num [Real.exp_zero]

/-- C9: the pricer raises a ValueError for non-positive spot or strike,
negative maturity, negative volatility, or a side that does not normalize
to call/put, and the vega function raises likewise for the numeric
violations; no NaN sentinel is involved. -/
theorem structural_errors_raise (s : String) (S K T r q sigma : ℝ) :
    ((S ≤ 0 ∨ K ≤ 0 ∨ T < 0 ∨ sigma < 0 ∨
        ¬(normalizeSide s = "call" ∨ normalizeSide s = "put")) →
      ∃ e, black_scholes_price s S K T r q sigma = .error e) ∧
    ((S ≤ 0 ∨ K ≤ 0 ∨ T < 0 ∨ sigma < 0) →
      ∃ e, black_scholes_vega S K T r q sigma = .error e) := by
  constructor
  · intro h
    by_cases hside : normalizeSide s = "call" ∨ normalizeSide s = "put"
    · have hnum : S ≤ 0 ∨ K ≤ 0 ∨ T < 0 ∨ sigma < 0 := by tauto
      obtain ⟨e, he⟩ := validate_inputs_some hnum
      refine ⟨e, ?_⟩
      unfold black_scholes_price
      simp only []
      rw [if_neg (side_if_false hside), he]
    · exact ⟨_, price_err_side hside⟩
  · intro h
    obtain ⟨e, he⟩ := validate_inputs_some h
    refine ⟨e, ?_⟩
    unfold black_scholes_vega
    rw [he]

/-- Witness for C9 at concrete inputs: negative spot makes both the pricer
and the vega function raise. -/
theorem structural_errors_raise_witness :
    (∃ e, black_scholes_price "call" (-1) 1 1 0 0 1 = .error e) ∧
    (∃ e, black_scholes_vega (-1) 1 1 0 0 1 = .error e) :=
  ⟨(structural_errors_raise "call" (-1) 1 1 0 0 1).1
      (Or.inl (by norm_num)),
   (structural_errors_raise "call" (-1) 1 1 0 0 1).2
      (Or.inl (by norm_num))⟩

/-- C10: with admissible numeric arguments, each entry point taking an
option side raises a ValueError exactly when the lowercased, stripped side
string is neither "call" nor "put". -/
theorem side_normalization_accepts (s : String) (S K T r q sigma mp init : ℝ)
    (hS : 0 < S) (hK : 0 < K) (hT : 0 ≤ T) (hsig : 0 ≤ sigma) :
    ((∃ e, black_scholes_price s S K T r q sigma = .error e) ↔
      ¬(normalizeSide s = "call" ∨ normalizeSide s = "put")) ∧
    ((∃ e, implied_vol_newton s mp S K T r q init 1e-7 100 1e-10 1e-6 5.0
        true = .error e) ↔
      ¬(normalizeSide s = "call" ∨ normalizeSide s = "put")) ∧
    ((∃ e, implied_vol_bisection s mp S K T r q 1e-7 200 1e-6 5.0 true =
        .error e) ↔
      ¬(normalizeSide s = "call" ∨ normalizeSide s = "put")) := by
  refine ⟨⟨fun he hside => ?_, fun hside => ⟨_, price_err_side hside⟩⟩,
    ⟨fun he hside => ?_, fun hside => ⟨_, newton_err_side hside⟩⟩,
    ⟨fun he hside => ?_, fun hside => ⟨_, bisect_err_side hside⟩⟩⟩
  · obtain ⟨p, hp⟩ := price_isOk hside hS hK hT hsig
    obtain ⟨e, he⟩ := he
    rw [hp] at he
    exact Except.noConfusion he
  · obtain ⟨res, hres⟩ : ∃ res, implied_vol_newton s mp S K T r q init
        1e-7 100 1e-10 1e-6 5.0 true = .ok res :=
      newton_ok_of_validSide hside hS hK (by norm_num) (by norm_num)
    obtain ⟨e, he⟩ := he
    rw [hres] at he
    exact Except.noConfusion he
  · obtain ⟨res, hres⟩ : ∃ res, implied_vol_bisection s mp S K T r q
        1e-7 200 1e-6 5.0 true = .ok res :=
      bisection_ok_of_validSide hside hS hK (by norm_num) (by norm_num)
    obtain ⟨e, he⟩ := he
    rw [hres] at he
    exact Except.noConfusion he

/-- Witness for C10 at a concrete input: the side string " Put " (mixed
case, padded with spaces) is accepted by all three entry points. -/
theorem side_normalization_accepts_witness :
    ¬(∃ e, black_scholes_price " Put " 1 1 1 0 0 1 = .error e) ∧
    ¬(∃ e, implied_vol_newton " Put " 0 1 1 1 0 0 0.2 1e-7 100 1e-10 1e-6
        5.0 true = .error e) ∧
    ¬(∃ e, implied_vol_bisection " Put " 0 1 1 1 0 0 1e-7 200 1e-6 5.0
        true = .error e) := by
  have hvalid : normalizeSide " Put " = "put" := by decide
  have h := side_normalization_accepts " Put " 1 1 1 0 0 1 0 0.2
    (by norm_num) (by norm_num) (by norm_num) (by norm_num)
  exact ⟨fun he => h.1.mp he (Or.inr hvalid),
    fun he => h.2.1.mp he (Or.inr hvalid),
    fun he => h.2.2.mp he (Or.inr hvalid)⟩

/-- C3: once the immediate rejection checks pass, Newton starts from the
initial guess clamped into [sigma_min, sigma_max], and each iteration
returns sigma on |diff| < tol, NaN on vega < vega_floor, NaN immediately
(without clamping) when the updated sigma leaves [sigma_min, sigma_max]
strictly, recurses otherwise, and returns NaN when the iterations are
exhausted. -/
theorem newton_iteration_semantics (s : String)
    (mp S K T r q init tol vf smin smax : ℝ) (max_iter : Nat) (enf : Bool)
    (hside : normalizeSide s = "call" ∨ normalizeSide s = "put")
    (hmp : 0 ≤ mp) (hT : 0 < T)
    (hb : enf = true →
      ((no_arbitrage_bounds (normalizeSide s) S K T r q).1 - 1e-12 ≤ mp ∧
       mp ≤ (no_arbitrage_bounds (normalizeSide s) S K T r q).2 + 1e-12)) :
    implied_vol_newton s mp S K T r q init tol max_iter vf smin smax enf =
      newton_loop (normalizeSide s) mp S K T r q tol vf smin smax max_iter
        (min (max init smin) smax) ∧
    (∀ sigma, newton_loop (normalizeSide s) mp S K T r q tol vf smin smax 0
        sigma = .ok .nan) ∧
    (∀ n sigma p,
      black_scholes_price (normalizeSide s) S K T r q sigma = .ok p →
      |p - mp| < tol →
      newton_loop (normalizeSide s) mp S K T r q tol vf smin smax (n + 1)
        sigma = .ok (.val sigma)) ∧
    (∀ n sigma p v,
      black_scholes_price (normalizeSide s) S K T r q sigma = .ok p →
      ¬(|p - mp| < tol) →
      black_scholes_vega S K T r q sigma = .ok v → v < vf →
      newton_loop (normalizeSide s) mp S K T r q tol vf smin smax (n + 1)
        sigma = .ok .nan) ∧
    (∀ n sigma p v,
      black_scholes_price (normalizeSide s) S K T r q sigma = .ok p →
      ¬(|p - mp| < tol) →
      black_scholes_vega S K T r q sigma = .ok v → ¬(v < vf) →
      (sigma - (p - mp) / v < smin ∨ sigma - (p - mp) / v > smax) →
      newton_loop (normalizeSide s) mp S K T r q tol vf smin smax (n + 1)
        sigma = .ok .nan) ∧
    (∀ n sigma p v,
      black_scholes_price (normalizeSide s) S K T r q sigma = .ok p →
      ¬(|p - mp| < tol) →
      black_scholes_vega S K T r q sigma = .ok v → ¬(v < vf) →
      ¬(sigma - (p - mp) / v < smin ∨ sigma - (p - mp) / v > smax) →
      newton_loop (normalizeSide s) mp S K T r q tol vf smin smax (n + 1)
        sigma =
        newton_loop (normalizeSide s) mp S K T r q tol vf smin smax n
          (sigma - (p - mp) / v)) := by
  refine ⟨?_, fun sigma => newton_loop_zero,
    fun n sigma p hp hc => newton_loop_succ_conv hp hc,
    fun n sigma p v hp hc hv h2 => newton_loop_succ_vega_small hp hc hv h2,
    fun n sigma p v hp hc hv h2 h3 => newton_loop_succ_out hp hc hv h2 h3,
    fun n sigma p v hp hc hv h2 h3 => newton_loop_succ_step hp hc hv h2 h3⟩
  exact newton_run hside (not_lt.mpr hmp) (not_le.mpr hT)
    (fun ⟨he, hn⟩ => hn (hb he))

/-- Witness for C3 at a concrete input where every rejection check passes. -/
theorem newton_iteration_semantics_witness :
    implied_vol_newton "call" 0 1 1 1 0 0 0.2 1e-7 100 1e-10 1e-6 5.0 true =
      newton_loop (normalizeSide "call") 0 1 1 1 0 0 1e-7 1e-10 1e-6 5.0 100
        (min (max 0.2 1e-6) 5.0) :=
  (newton_iteration_semantics "call" 0 1 1 1 0 0 0.2 1e-7 1e-10 1e-6 5.0 100
    true (Or.inl normalizeSide_call) le_rfl (by norm_num)
    (fun _ => by
      rw [normalizeSide_call]
      unfold no_arbitrage_bounds
      norm_num [Real.exp_zero])).1

/-- C5: bisection evaluates `f` at sigma_low and sigma_high, returns NaN
when `f_low · f_high > 0`, and otherwise iterates: the midpoint is returned
when |f_mid| < tol or the bracket is narrower than tol, the upper end moves
to the midpoint when `f_low · f_mid ≤ 0`, the lower end moves otherwise,
and exhausting the iterations returns NaN. -/
theorem bisection_semantics (s : String)
    (mp S K T r q tol slo shi : ℝ) (max_iter : Nat) (enf : Bool)
    (hside : normalizeSide s = "call" ∨ normalizeSide s = "put")
    (hcheck : ¬(mp < 0 ∨ T ≤ 0))
    (hb : enf = true →
      ((no_arbitrage_bounds (normalizeSide s) S K T r q).1 - 1e-12 ≤ mp ∧
       mp ≤ (no_arbitrage_bounds (normalizeSide s) S K T r q).2 + 1e-12)) :
    (∀ pl ph,
      black_scholes_price (normalizeSide s) S K T r q slo = .ok pl →
      black_scholes_price (normalizeSide s) S K T r q shi = .ok ph →
      ((pl - mp) * (ph - mp) > 0 →
        implied_vol_bisection s mp S K T r q tol max_iter slo shi enf =
          .ok .nan) ∧
      (¬((pl - mp) * (ph - mp) > 0) →
        implied_vol_bisection s mp S K T r q tol max_iter slo shi enf =
          bisect_loop (normalizeSide s) mp S K T r q tol max_iter slo shi
            (pl - mp) (ph - mp))) ∧
    (∀ low high fl fh,
      bisect_loop (normalizeSide s) mp S K T r q tol 0 low high fl fh =
        .ok .nan) ∧
    (∀ n low high fl fh pm,
      black_scholes_price (normalizeSide s) S K T r q (0.5 * (low + high)) =
        .ok pm →
      (|pm - mp| < tol ∨ high - low < tol →
        bisect_loop (normalizeSide s) mp S K T r q tol (n + 1) low high fl
          fh = .ok (.val (0.5 * (low + high)))) ∧
      (¬(|pm - mp| < tol ∨ high - low < tol) → fl * (pm - mp) ≤ 0 →
        bisect_loop (normalizeSide s) mp S K T r q tol (n + 1) low high fl
          fh =
        bisect_loop (normalizeSide s) mp S K T r q tol n low
          (0.5 * (low + high)) fl (pm - mp)) ∧
      (¬(|pm - mp| < tol ∨ high - low < tol) → ¬(fl * (pm - mp) ≤ 0) →
        bisect_loop (normalizeSide s) mp S K T r q tol (n + 1) low high fl
          fh =
        bisect_loop (normalizeSide s) mp S K T r q tol n
          (0.5 * (low + high)) high (pm - mp) fh)) := by
  have hb2 : ¬(enf = true ∧
      ¬((no_arbitrage_bounds (normalizeSide s) S K T r q).1 - 1e-12 ≤ mp ∧
        mp ≤ (no_arbitrage_bounds (normalizeSide s) S K T r q).2 + 1e-12)) :=
    fun ⟨he, hn⟩ => hn (hb he)
  refine ⟨fun pl ph hpl hph =>
    ⟨fun hsign => bisect_nan_no_bracket hside hcheck hb2 hpl hph hsign,
     fun hsign => bisect_run hside hcheck hb2 hpl hph hsign⟩,
    fun low high fl fh => bisect_loop_zero,
    fun n low high fl fh pm hp =>
    ⟨fun hc => bisect_loop_succ_conv hp hc,
     fun hc h2 => bisect_loop_succ_lower hp hc h2,
     fun hc h2 => bisect_loop_succ_upper hp hc h2⟩⟩

/-- Witness for C5 at a concrete input where every rejection check passes. -/
theorem bisection_semantics_witness :
    ∃ pl ph,
      black_scholes_price (normalizeSide "call") 1 1 1 0 0 1e-6 = .ok pl ∧
      black_scholes_price (normalizeSide "call") 1 1 1 0 0 5.0 = .ok ph ∧
      ((pl - 0) * (ph - 0) > 0 →
        implied_vol_bisection "call" 0 1 1 1 0 0 1e-7 200 1e-6 5.0 true =
          .ok .nan) ∧
      (¬((pl - 0) * (ph - 0) > 0) →
        implied_vol_bisection "call" 0 1 1 1 0 0 1e-7 200 1e-6 5.0 true =
          bisect_loop (normalizeSide "call") 0 1 1 1 0 0 1e-7 200 1e-6 5.0
            (pl - 0) (ph - 0)) := by
  obtain ⟨pl, hpl⟩ : ∃ pl, black_scholes_price (normalizeSide "call")
      1 1 1 0 0 1e-6 = .ok pl :=
    price_isOk (Or.inl (by rw [normalizeSide_call]; exact normalizeSide_call))
      (by norm_num) (by norm_num) (by norm_num) (by norm_num)
  obtain ⟨ph, hph⟩ : ∃ ph, black_scholes_price (normalizeSide "call")
      1 1 1 0 0 5.0 = .ok ph :=
    price_isOk (Or.inl (by rw [normalizeSide_call]; exact normalizeSide_call))
      (by norm_num) (by norm_num) (by norm_num) (by norm_num)
  have h := (bisection_semantics "call" 0 1 1 1 0 0 1e-7 1e-6 5.0 200 true
    (Or.inl normalizeSide_call) (by push_neg; norm_num)
    (fun _ => by
      rw [normalizeSide_call]
      unfold no_arbitrage_bounds
      norm_num [Real.exp_zero])).1 pl ph hpl hph
  exact ⟨pl, ph, hpl, hph, h.1, h.2⟩

lemma max_sub_max (a b : ℝ) : max (a - b) 0 - max (b - a) 0 = a - b := by
  rcases le_total a b with h | h
  · rw [max_eq_right (by linarith), max_eq_left (by linarith)]
    ring
  · rw [max_eq_left (by linarith), max_eq_right (by linarith)]
    ring

/-- C6: put–call parity: for admissible inputs the call price minus the put
price equals `S·exp(−qT) − K·exp(−rT)` within 1e-6, in every branch of the
pricer (expiry, zero volatility, and the closed form). -/
theorem put_call_parity_price (S K T r q sigma : ℝ) (hS : 0 < S)
    (hK : 0 < K) (hT : 0 ≤ T) (hsig : 0 ≤ sigma) :
    ∃ c p, black_scholes_price "call" S K T r q sigma = .ok c ∧
      black_scholes_price "put" S K T r q sigma = .ok p ∧
      |c - p - (S * Real.exp (-q * T) - K * Real.exp (-r * T))| ≤ 1e-6 := by
  rcases eq_or_lt_of_le hT with hT0 | hTpos
  · subst hT0
    refine ⟨max (S - K) 0, max (K - S) 0,
      price_T0_call normalizeSide_call hS hK hsig,
      price_T0_put normalizeSide_put hS hK hsig, ?_⟩
    rw [max_sub_max]
    have e0 : S - K - (S * Real.exp (-q * 0) - K * Real.exp (-r * 0)) = 0 := by
      rw [show (-q * (0:ℝ)) = 0 by ring, show (-r * (0:ℝ)) = 0 by ring,
        Real.exp_zero]
      ring
    rw [e0, abs_zero]
    norm_num
  · rcases eq_or_lt_of_le hsig with hs0 | hspos
    · subst hs0
      refine ⟨_, _, price_sigma0_call normalizeSide_call hS hK hTpos,
        price_sigma0_put normalizeSide_put hS hK hTpos, ?_⟩
      have hexp : Real.exp (-r * T) * Real.exp ((r - q) * T) =
          Real.exp (-q * T) := by
        rw [← Real.exp_add]
        congr 1
        ring
      have e0 : Real.exp (-r * T) * max (S * Real.exp ((r - q) * T) - K) 0 -
          Real.exp (-r * T) * max (K - S * Real.exp ((r - q) * T)) 0 -
          (S * Real.exp (-q * T) - K * Real.exp (-r * T)) = 0 := by
        rw [← mul_sub, max_sub_max]
        have : Real.exp (-r * T) * (S * Real.exp ((r - q) * T) - K) =
            S * Real.exp (-q * T) - K * Real.exp (-r * T) := by
          rw [mul_sub]
          rw [show Real.exp (-r * T) * (S * Real.exp ((r - q) * T)) =
            S * (Real.exp (-r * T) * Real.exp ((r - q) * T)) by ring, hexp]
          ring
        rw [this]
        ring
      rw [e0, abs_zero]
      norm_num
    · refine ⟨_, _, price_main_call normalizeSide_call hS hK hTpos hspos,
        price_main_put normalizeSide_put hS hK hTpos hspos, ?_⟩
      have h1 := normalCdf_add_neg (bs_d1 S K T r q sigma)
      have h2 := normalCdf_add_neg (bs_d2 S K T r q sigma)
      have e0 : S * Real.exp (-q * T) * normalCdf (bs_d1 S K T r q sigma) -
          K * Real.exp (-r * T) * normalCdf (bs_d2 S K T r q sigma) -
          (K * Real.exp (-r * T) * normalCdf (-(bs_d2 S K T r q sigma)) -
           S * Real.exp (-q * T) * normalCdf (-(bs_d1 S K T r q sigma))) -
          (S * Real.exp (-q * T) - K * Real.exp (-r * T)) = 0 := by
        linear_combination (S * Real.exp (-q * T)) * h1 -
          (K * Real.exp (-r * T)) * h2
      rw [e0, abs_zero]
      norm_num

/-- Witness for C6 at a concrete input (the expiry branch, where both
prices are intrinsic values). -/
theorem put_call_parity_price_witness :
    ∃ c p, black_scholes_price "call" 1 1 0 0 0 0 = .ok c ∧
      black_scholes_price "put" 1 1 0 0 0 0 = .ok p ∧
      |c - p - (1 * Real.exp (-0 * 0) - 1 * Real.exp (-0 * 0))| ≤ 1e-6 :=
  put_call_parity_price 1 1 0 0 0 0 (by norm_num) (by norm_num)
    (by norm_num) (by norm_num)

lemma log_1000_gt_six : (6:ℝ) < Real.log 1000 := by
  rw [Real.lt_log_iff_exp_lt (by norm_num)]
  have h1 : Real.exp 6 = Real.exp 1 ^ 6 := by
    rw [← Real.exp_nat_mul]
    norm_num
  have h2 : Real.exp 1 ^ 6 ≤ 2.7182818286 ^ 6 :=
    pow_le_pow_left₀ (Real.exp_pos 1).le Real.exp_one_lt_d9.le 6
  have h3 : (2.7182818286:ℝ) ^ 6 < 1000 := by norm_num
  linarith [h1 ▸ h2]

lemma exp_two_gt_seven : (7:ℝ) < Real.exp 2 := by
  have h1 : Real.exp 2 = Real.exp 1 ^ 2 := by
    rw [← Real.exp_nat_mul]
    norm_num
  have h2 : (2.7182818283:ℝ) ^ 2 ≤ Real.exp 1 ^ 2 :=
    pow_le_pow_left₀ (by norm_num) Real.exp_one_gt_d9.le 2
  have h3 : (7:ℝ) < 2.7182818283 ^ 2 := by norm_num
  linarith

/-- Any CDF value at an argument below −299 is dwarfed by `7⁻¹⁴⁹`. -/
lemma normalCdf_tiny {x : ℝ} (hx : x ≤ -299) :
    normalCdf x ≤ ((7:ℝ) ^ 149)⁻¹ := by
  have h1 := normalCdf_le_exp x
  have h2 : Real.exp (x + 1/2) ≤ Real.exp (-298) :=
    Real.exp_le_exp.mpr (by linarith)
  have h3 : Real.exp (298:ℝ) = Real.exp 2 ^ 149 := by
    rw [show (298:ℝ) = ((149:ℕ):ℝ) * 2 by norm_num, Real.exp_nat_mul]
  have h4 : (7:ℝ) ^ 149 ≤ Real.exp 2 ^ 149 :=
    pow_le_pow_left₀ (by norm_num) exp_two_gt_seven.le 149
  have h5 : Real.exp (-298:ℝ) ≤ ((7:ℝ) ^ 149)⁻¹ := by
    rw [Real.exp_neg]
    have h6 : (0:ℝ) < 7 ^ 149 := by positivity
    have h7 : (7:ℝ) ^ 149 ≤ Real.exp 298 := by
      rw [h3]; exact h4
    exact inv_anti₀ h6 h7
  linarith

lemma cex_sqrt : Real.sqrt (1/100) = 1/10 := by
  rw [show (1/100:ℝ) = (1/10) ^ 2 by norm_num,
    Real.sqrt_sq (by norm_num : (0:ℝ) ≤ 1/10)]

lemma cex_log : Real.log ((1:ℝ)/1000) = -Real.log 1000 := by
  rw [one_div, Real.log_inv]

lemma cex_d1_02 : bs_d1 1 1000 (1/100) 0 0 0.2 ≤ -299 := by
  unfold bs_d1
  rw [cex_sqrt, cex_log]
  rw [div_le_iff₀ (by norm_num : (0:ℝ) < 0.2 * (1/10))]
  have := log_1000_gt_six
  linarith

lemma cex_d2_02 : bs_d2 1 1000 (1/100) 0 0 0.2 ≤ -299 := by
  unfold bs_d2
  rw [cex_sqrt]
  have := cex_d1_02
  linarith

lemma cex_d1_005 : bs_d1 1 1000 (1/100) 0 0 (1/20) ≤ -299 := by
  unfold bs_d1
  rw [cex_sqrt, cex_log]
  rw [div_le_iff₀ (by norm_num : (0:ℝ) < (1/20) * (1/10))]
  have := log_1000_gt_six
  linarith

lemma cex_d2_005 : bs_d2 1 1000 (1/100) 0 0 (1/20) ≤ -299 := by
  unfold bs_d2
  rw [cex_sqrt]
  have := cex_d1_005
  linarith

/-- At the deep out-of-the-money short-maturity counterexample parameters,
the call price is astronomically small for any sigma whose `d1`, `d2` lie
below −299. -/
lemma cex_price_small (sigma : ℝ) (hs : 0 < sigma)
    (hd1 : bs_d1 1 1000 (1/100) 0 0 sigma ≤ -299)
    (hd2 : bs_d2 1 1000 (1/100) 0 0 sigma ≤ -299) :
    ∃ pv, black_scholes_price "call" 1 1000 (1/100) 0 0 sigma = .ok pv ∧
      |pv| ≤ 1001 * ((7:ℝ) ^ 149)⁻¹ := by
  refine ⟨_, price_main_call normalizeSide_call (by norm_num) (by norm_num)
    (by norm_num) hs, ?_⟩
  have hexp : Real.exp (-0 * (1/100:ℝ)) = 1 := by
    rw [show (-0 * (1/100:ℝ)) = 0 by ring, Real.exp_zero]
  rw [hexp]
  have h1 := normalCdf_tiny hd1
  have h2 := normalCdf_tiny hd2
  have hn1 := normalCdf_nonneg (bs_d1 1 1000 (1/100) 0 0 sigma)
  have hn2 := normalCdf_nonneg (bs_d2 1 1000 (1/100) 0 0 sigma)
  have hinv : (0:ℝ) ≤ ((7:ℝ) ^ 149)⁻¹ := by positivity
  rw [abs_le]
  constructor <;> nlinarith

lemma cex_bounds : no_arbitrage_bounds "call" 1 1000 (1/100) 0 0 = (0, 1) := by
  unfold no_arbitrage_bounds
  norm_num [Real.exp_zero]

/-- With the counterexample parameters and any nonnegative, astronomically
small market price, Newton converges at once to the clamped initial guess
0.2. -/
lemma cex_newton (p : ℝ) (hp0 : 0 ≤ p)
    (hps : |p| ≤ 1001 * ((7:ℝ) ^ 149)⁻¹) :
    implied_vol_newton "call" p 1 1000 (1/100) 0 0 0.2 1e-7 100 1e-10 1e-6
      5.0 true = .ok (.val 0.2) := by
  have hb : ¬((true = true) ∧
      ¬((no_arbitrage_bounds (normalizeSide "call") 1 1000 (1/100) 0 0).1 -
          1e-12 ≤ p ∧
        p ≤ (no_arbitrage_bounds (normalizeSide "call") 1 1000 (1/100) 0
          0).2 + 1e-12)) := by
    rintro ⟨-, hn⟩
    apply hn
    rw [normalizeSide_call, cex_bounds]
    have habs := abs_le.mp hps
    constructor
    · simp only []
      nlinarith [habs.1]
    · simp only []
      nlinarith [habs.2, (by norm_num : (1001 * ((7:ℝ) ^ 149)⁻¹) ≤ 1e-12)]
  have hrun : implied_vol_newton "call" p 1 1000 (1/100) 0 0 0.2 1e-7 100
      1e-10 1e-6 5.0 true =
      newton_loop (normalizeSide "call") p 1 1000 (1/100) 0 0 1e-7 1e-10
        1e-6 5.0 100 (min (max 0.2 1e-6) 5.0) :=
    newton_run (Or.inl normalizeSide_call) (not_lt.mpr hp0) (by norm_num) hb
  rw [hrun, normalizeSide_call]
  have hmin : min (max (0.2:ℝ) 1e-6) 5.0 = 0.2 := by norm_num
  rw [hmin]
  obtain ⟨p2, hp2, hp2s⟩ := cex_price_small 0.2 (by norm_num) cex_d1_02
    cex_d2_02
  have h100 : (100:Nat) = 99 + 1 := rfl
  rw [h100]
  refine newton_loop_succ_conv hp2 ?_
  have habs := abs_le.mp hps
  have habs2 := abs_le.mp hp2s
  rw [abs_lt]
  constructor <;>
    nlinarith [(by norm_num : (2 * (1001 * ((7:ℝ) ^ 149)⁻¹)) < 1e-7)]

/-- Counterexample for C1: at side "call", S = 1, K = 1000, T = 1/100,
r = q = 0, sigma = 1/20 ∈ [0.05, 3], the round-trip
`implied_vol (price sigma)` does not land within 1e-4 of sigma: the price
function is so flat that Newton accepts the initial guess 0.2. -/
theorem roundtrip_recovery_cex :
    ∃ p, black_scholes_price "call" 1 1000 (1/100) 0 0 (1/20) = .ok p ∧
      ∀ v, implied_vol "call" p 1 1000 (1/100) 0 0 0.2 = .ok (.val v) →
        ¬(|v - 1/20| ≤ 1/10 ^ 4) := by
  obtain ⟨p, hp, hps⟩ := cex_price_small (1/20) (by norm_num) cex_d1_005
    cex_d2_005
  refine ⟨p, hp, ?_⟩
  intro v hv
  by_cases hneg : p < 0
  · have hn : implied_vol_newton "call" p 1 1000 (1/100) 0 0 0.2 1e-7 100
        1e-10 1e-6 5.0 true = .ok .nan :=
      newton_nan_mp_neg (Or.inl normalizeSide_call) hneg
    have hbis : implied_vol_bisection "call" p 1 1000 (1/100) 0 0 1e-7 200
        1e-6 5.0 true = .ok .nan :=
      bisect_nan_early (Or.inl normalizeSide_call) (Or.inl hneg)
    have hiv : implied_vol "call" p 1 1000 (1/100) 0 0 0.2 =
        implied_vol_bisection "call" p 1 1000 (1/100) 0 0 1e-7 200 1e-6 5.0
          true := by
      unfold implied_vol
      rw [hn]
    rw [hiv, hbis] at hv
    injection hv with h1
    exact PyFloat.noConfusion h1
  · push_neg at hneg
    have hnewton := cex_newton p hneg hps
    have hiv : implied_vol "call" p 1 1000 (1/100) 0 0 0.2 =
        .ok (.val 0.2) := by
      unfold implied_vol
      rw [hnewton]
    rw [hiv] at hv
    injection hv with h1
    injection h1 with h2
    intro habs
    rw [← h2] at habs
    rw [abs_of_nonneg (by norm_num)] at habs
    norm_num at habs

lemma newton_loop_succ_price_err {ot : String}
    {mp S K T r q tol vf smin smax sigma : ℝ} {e : String} {n : Nat}
    (hp : black_scholes_price ot S K T r q sigma = .error e) :
    newton_loop ot mp S K T r q tol vf smin smax (n + 1) sigma =
      .error e := by
  unfold newton_loop
  rw [hp]

lemma newton_loop_succ_vega_err {ot : String}
    {mp S K T r q tol vf smin smax sigma p : ℝ} {e : String} {n : Nat}
    (hp : black_scholes_price ot S K T r q sigma = .ok p)
    (h1 : ¬(|p - mp| < tol))
    (hv : black_scholes_vega S K T r q sigma = .error e) :
    newton_loop ot mp S K T r q tol vf smin smax (n + 1) sigma =
      .error e := by
  unfold newton_loop
  rw [hp]
  simp only []
  rw [if_neg h1, hv]

/-- Partial correctness of the Newton loop: a returned value reproduces the
market price within `tol`. -/
lemma newton_loop_val {ot : String} {mp S K T r q tol vf smin smax : ℝ} :
    ∀ n sigma v,
      newton_loop ot mp S K T r q tol vf smin smax n sigma = .ok (.val v) →
      ∃ pv, black_scholes_price ot S K T r q v = .ok pv ∧
        |pv - mp| < tol := by
  intro n
  induction n with
  | zero =>
    intro sigma v h
    rw [newton_loop_zero] at h
    injection h with h1
    exact PyFloat.noConfusion h1
  | succ n ih =>
    intro sigma v h
    cases hp : black_scholes_price ot S K T r q sigma with
    | error e =>
      rw [newton_loop_succ_price_err hp] at h
      exact Except.noConfusion h
    | ok p =>
      by_cases hc : |p - mp| < tol
      · rw [newton_loop_succ_conv hp hc] at h
        injection h with h1
        injection h1 with h2
        exact ⟨p, h2 ▸ hp, hc⟩
      · cases hv : black_scholes_vega S K T r q sigma with
        | error e =>
          rw [newton_loop_succ_vega_err hp hc hv] at h
          exact Except.noConfusion h
        | ok vv =>
          by_cases h2 : vv < vf
          · rw [newton_loop_succ_vega_small hp hc hv h2] at h
            injection h with h1
            exact PyFloat.noConfusion h1
          · by_cases h3 : sigma - (p - mp) / vv < smin ∨
                sigma - (p - mp) / vv > smax
            · rw [newton_loop_succ_out hp hc hv h2 h3] at h
              injection h with h1
              exact PyFloat.noConfusion h1
            · rw [newton_loop_succ_step hp hc hv h2 h3] at h
              exact ih _ v h

/-- C1 (amended): whenever Newton succeeds, the top-level `implied_vol`
returns its value, and that value reproduces the market price within the
Newton tolerance 1e-7 — the round-trip holds in this backward-error sense,
not in the stated forward sense |v − sigma| ≤ 1e-4. -/
theorem newton_backward_error (s : String) (mp S K T r q init : ℝ) :
    ∀ v, implied_vol_newton s mp S K T r q init 1e-7 100 1e-10 1e-6 5.0
        true = .ok (.val v) →
      implied_vol s mp S K T r q init = .ok (.val v) ∧
      ∃ pv, black_scholes_price (normalizeSide s) S K T r q v = .ok pv ∧
        |pv - mp| < 1e-7 := by
  intro v hv
  constructor
  · unfold implied_vol
    rw [hv]
  · by_cases hside : normalizeSide s = "call" ∨ normalizeSide s = "put"
    · by_cases hmp : mp < 0
      · rw [newton_nan_mp_neg hside hmp] at hv
        injection hv with h1
        exact PyFloat.noConfusion h1
      · by_cases hT : T ≤ 0
        · rw [newton_nan_T hside hmp hT] at hv
          injection hv with h1
          exact PyFloat.noConfusion h1
        · by_cases hbnd : (true = true) ∧
            ¬((no_arbitrage_bounds (normalizeSide s) S K T r q).1 - 1e-12 ≤
                mp ∧
              mp ≤ (no_arbitrage_bounds (normalizeSide s) S K T r q).2 +
                1e-12)
          · rw [newton_nan_bounds hside hmp hT hbnd] at hv
            injection hv with h1
            exact PyFloat.noConfusion h1
          · rw [newton_run hside hmp hT hbnd] at hv
            exact newton_loop_val _ _ v hv
    · rw [newton_err_side hside] at hv
      exact Except.noConfusion hv

/-- Witness for the amended C1 at a concrete input: with market price 0 at
the flat deep out-of-the-money parameters, Newton returns 0.2 and the
returned volatility reprices to within 1e-7 of the market price. -/
theorem newton_backward_error_witness :
    implied_vol "call" 0 1 1000 (1/100) 0 0 0.2 = .ok (.val 0.2) ∧
    ∃ pv, black_scholes_price (normalizeSide "call") 1 1000 (1/100) 0 0 0.2
      = .ok pv ∧ |pv - 0| < 1e-7 :=
  newton_backward_error "call" 0 1 1000 (1/100) 0 0 0.2 0.2
    (cex_newton 0 le_rfl (by norm_num))
